import Mathlib

set_option maxHeartbeats 1000000

/-!
Shallow embedding of the rate-limiter connection wrappers of
limiter/wrapper/conn.go: the stream wrapper serverConn, the generic
datagram wrapper packetConn, the UDP capability-bridging wrapper udpConn,
and the constructors WrapConn, WrapPacketConn, WrapUDPConn.

Bytes are Nat, host keys are Nat (the remote address with the port
stripped), errors are the inductive Err (the distinguished errUnsupport
value plus opaque underlying I/O errors).  A stateful limiter is modelled
by the grants it returns along the execution trace: a function from call
index and requested amount to granted amount.  An underlying stream
connection is modelled by the list of bytes it will deliver plus per-call
oracles for the byte count and error of each of its Read/Write calls; an
underlying packet connection is modelled by the list of datagrams it will
deliver.
-/

/-- Errors: the distinguished unsupported-operation error (errUnsupport in
conn.go) and opaque errors produced by the underlying connection. -/
inductive Err where
  | unsupported
  | other (code : Nat)
deriving DecidableEq, Repr

/-- Model of limiter.RateLimiter as seen by one serverConn method call:
In(host) and Out(host) either fail (no limiter for that host) or give the
grant behaviour of the returned limiter.  The ingress limiter is consulted
once per Read call, so its model maps the requested amount to the granted
amount; the egress limiter is consulted repeatedly inside one Write call,
so its model additionally takes the index of the Wait call. -/
structure RateLimiterM where
  inL  : Nat → Option (Nat → Nat)
  outL : Nat → Option (Nat → Nat → Nat)

/-- Outcome of one Read call of the underlying net.Conn: it places nn bytes
of its stream into the caller buffer and possibly reports an error
(io.Reader allows nn > 0 together with a non-nil error). -/
structure ReadResult where
  nn   : Nat
  rerr : Option Err
deriving DecidableEq, Repr

/-- State of a serverConn relevant to Read: the staging buffer rbuf
(bytes.Buffer) and the bytes src not yet consumed from the underlying
connection. -/
structure ServerSt where
  rbuf : List Nat
  src  : List Nat
deriving DecidableEq, Repr

/-- Read of the raw underlying connection (the behaviour serverConn.Read
delegates to on its fast path): deliver the next res.nn bytes of the
stream together with the oracle error, leaving the staging buffer alone. -/
def rawConnRead (res : ReadResult) (st : ServerSt) :
    (List Nat × Option Err) × ServerSt :=
  ((st.src.take res.nn, res.rerr), ⟨st.rbuf, st.src.drop res.nn⟩)

/-- serverConn.Read (conn.go lines 40-70).  Output: the bytes delivered to
the caller, the returned error, and the successor state.  blen is len(b),
res the outcome the underlying Conn.Read would produce if consulted.
The staged branch mirrors burst := min(len(b), rbuf.Len()),
lim := limiter.Wait(burst), rbuf.Read(b[:lim]) (which drains
min(lim, rbuf.Len()) bytes, List.take's own clamping); the network branch
mirrors nn, err := Conn.Read(b), n := limiter.Wait(nn) and the staging of
b[n:nn] when n < nn (bytes.Buffer.Write never fails). -/
def serverConnRead (rl : Option RateLimiterM) (raddr blen : Nat)
    (res : ReadResult) (st : ServerSt) :
    (List Nat × Option Err) × ServerSt :=
  match rl with
  | none => rawConnRead res st
  | some r =>
    match r.inL raddr with
    | none => rawConnRead res st
    | some wait =>
      if 0 < st.rbuf.length then
        let burst := min blen st.rbuf.length
        let lim := wait burst
        ((st.rbuf.take lim, none), ⟨st.rbuf.drop lim, st.src⟩)
      else
        match res.rerr with
        | some e => ((st.src.take res.nn, some e), ⟨st.rbuf, st.src.drop res.nn⟩)
        | none =>
          let nn := res.nn
          let n := wait nn
          ((st.src.take (min n nn), none),
           ⟨(st.src.take nn).drop n, st.src.drop nn⟩)

/-- One Read call of a run: the grant behaviour of the ingress limiter at
this call, the caller buffer length, and the underlying read oracle. -/
structure ReadCall where
  wait : Nat → Nat
  blen : Nat
  res  : ReadResult

/-- A run of successive serverConn.Read calls with an ingress limiter
present throughout, returning the delivered chunks in order and the final
state. -/
def serverConnRun : List ReadCall → ServerSt → List (List Nat) × ServerSt
  | [], st => ([], st)
  | c :: cs, st =>
    ((serverConnRead (some ⟨fun _ => some c.wait, fun _ => none⟩)
        0 c.blen c.res st).1.1
      :: (serverConnRun cs
          (serverConnRead (some ⟨fun _ => some c.wait, fun _ => none⟩)
            0 c.blen c.res st).2).1,
     (serverConnRun cs
        (serverConnRead (some ⟨fun _ => some c.wait, fun _ => none⟩)
          0 c.blen c.res st).2).2)

/-- Result of serverConn.Write: n and err as returned to the caller, the
chunks issued to the underlying connection in order, the unwritten rest of
the buffer, and whether the loop returned (false means the supplied fuel
ran out before the loop exited). -/
structure WriteRes where
  n        : Nat
  err      : Option Err
  chunks   : List (List Nat)
  rem      : List Nat
  finished : Bool
deriving DecidableEq, Repr

/-- The loop of serverConn.Write (conn.go lines 80-87): while b is
non-empty, issue the chunk b[:limiter.Wait(len(b))] to the underlying
connection, accumulate the written count nn, return at once on a write
error, else advance b by nn.  uw k c is the (nn, err) outcome of the k-th
underlying Conn.Write on chunk c; wait k m the grant of the k-th
limiter.Wait for request m.  The Go loop has no intrinsic bound, so the
model carries fuel. -/
def serverConnWriteLoop (wait : Nat → Nat → Nat)
    (uw : Nat → List Nat → Nat × Option Err) :
    Nat → Nat → List Nat → WriteRes
  | fuel, k, b =>
    if b.length = 0 then ⟨0, none, [], b, true⟩
    else
      match fuel with
      | 0 => ⟨0, none, [], b, false⟩
      | fuel + 1 =>
        let chunk := b.take (wait k b.length)
        let w := uw k chunk
        match w.2 with
        | some e => ⟨w.1, some e, [chunk], b.drop w.1, true⟩
        | none =>
          let r := serverConnWriteLoop wait uw fuel (k + 1) (b.drop w.1)
          ⟨w.1 + r.n, r.err, chunk :: r.chunks, r.rem, r.finished⟩

/-- Write of the raw underlying connection (the fast path of
serverConn.Write): a single Conn.Write of the whole buffer. -/
def rawConnWrite (uw : Nat → List Nat → Nat × Option Err)
    (b : List Nat) : WriteRes :=
  let w := uw 0 b
  ⟨w.1, w.2, [b], b.drop w.1, true⟩

/-- serverConn.Write (conn.go lines 72-90): delegate directly when no
rate limiter or no egress limiter for the remote host, else run the
chunking loop with the egress limiter. -/
def serverConnWrite (rl : Option RateLimiterM) (raddr : Nat)
    (uw : Nat → List Nat → Nat × Option Err) (fuel : Nat)
    (b : List Nat) : WriteRes :=
  match rl with
  | none => rawConnWrite uw b
  | some r =>
    match r.outL raddr with
    | none => rawConnWrite uw b
    | some wait => serverConnWriteLoop wait uw fuel 0 b

/-- One event of an underlying packet connection: the datagram the next
ReadFrom call delivers (payload as delivered, source host key), or, when
derr is set, the error that call reports instead. -/
structure PDgram where
  payload : List Nat
  host    : Nat
  derr    : Option Err
deriving DecidableEq, Repr, Inhabited

/-- Result of a wrapper ReadFrom call: a delivered datagram with its
source host, a propagated underlying error, or blocked (the supplied
event list ran out, i.e. the underlying connection would block). -/
inductive PRes where
  | dgram (payload : List Nat) (host : Nat)
  | rerr (e : Err)
  | blocked
deriving DecidableEq, Repr

/-- Model of limiter.RateLimiter as consulted by the datagram wrappers:
which hosts have an ingress/egress limiter, the grant of the ingress
limiter per loop-iteration index, and the grant of the single egress Wait
of a WriteTo-style call. -/
structure PacketLimiter where
  hasIn   : Nat → Bool
  waitIn  : Nat → Nat → Nat → Nat
  hasOut  : Nat → Bool
  waitOut : Nat → Nat → Nat

/-- packetConn.ReadFrom (conn.go lines 116-137): loop reading datagrams;
propagate an underlying error at once; deliver the datagram when no rate
limiter or no ingress limiter for its source host; otherwise ask
Wait(n) and, when the grant falls short of n, discard the datagram and
continue with the next one.  k is the index of the loop iteration. -/
def packetConnReadFrom (rl : Option PacketLimiter) :
    Nat → List PDgram → PRes
  | _, [] => PRes.blocked
  | k, d :: ds =>
    match d.derr with
    | some e => PRes.rerr e
    | none =>
      match rl with
      | none => PRes.dgram d.payload d.host
      | some L =>
        if L.hasIn d.host = true then
          if L.waitIn k d.host d.payload.length < d.payload.length then
            packetConnReadFrom (some L) (k + 1) ds
          else PRes.dgram d.payload d.host
        else PRes.dgram d.payload d.host

/-- udpConn.ReadFrom (conn.go lines 195-213); the source repeats the loop
of packetConn.ReadFrom verbatim. -/
def udpConnReadFrom (rl : Option PacketLimiter) :
    Nat → List PDgram → PRes
  | _, [] => PRes.blocked
  | k, d :: ds =>
    match d.derr with
    | some e => PRes.rerr e
    | none =>
      match rl with
      | none => PRes.dgram d.payload d.host
      | some L =>
        if L.hasIn d.host = true then
          if L.waitIn k d.host d.payload.length < d.payload.length then
            udpConnReadFrom (some L) (k + 1) ds
          else PRes.dgram d.payload d.host
        else PRes.dgram d.payload d.host

/-- packetConn.WriteTo (conn.go lines 139-151): when a rate limiter is
set and an egress limiter exists for the destination host and its grant
for len(p) falls short, silently drop the datagram, returning
(len(p), nil) without touching the underlying connection; otherwise
delegate.  uw p host is the (n, err) outcome of the underlying WriteTo;
the Bool records whether the underlying write was performed. -/
def packetConnWriteTo (rl : Option PacketLimiter)
    (uw : List Nat → Nat → Nat × Option Err)
    (p : List Nat) (host : Nat) : (Nat × Option Err) × Bool :=
  match rl with
  | some L =>
    if L.hasOut host = true ∧ L.waitOut host p.length < p.length then
      ((p.length, none), false)
    else (uw p host, true)
  | none => (uw p host, true)

/-- udpConn.WriteTo (conn.go lines 274-287); the source repeats the body
of packetConn.WriteTo verbatim. -/
def udpConnWriteTo (rl : Option PacketLimiter)
    (uw : List Nat → Nat → Nat × Option Err)
    (p : List Nat) (host : Nat) : (Nat × Option Err) × Bool :=
  match rl with
  | some L =>
    if L.hasOut host = true ∧ L.waitOut host p.length < p.length then
      ((p.length, none), false)
    else (uw p host, true)
  | none => (uw p host, true)

/-- Responses of an underlying connection that implements udp.WriteUDP:
the (n, err) outcome of its WriteToUDP and the (n, oobn, err) outcome of
its WriteMsgUDP. -/
structure WriteUDPImpl where
  toRes  : Nat × Option Err
  msgRes : Nat × Nat × Option Err
deriving DecidableEq, Repr

/-- The optional capabilities of the packet connection wrapped by
udpConn, each as the response the underlying implementation would give
when the runtime type assertion succeeds, none when the underlying
connection does not implement the corresponding interface.
capRemoteAddr: xnet.RemoteAddr (the address it reports);
capSetBuffer: xnet.SetBuffer (outcomes of SetReadBuffer/SetWriteBuffer);
capReader/capWriter: io.Reader/io.Writer (the (n, err) of one call);
capReadUDP: udp.ReadUDP (the datagram events it will deliver; out-of-band
data of ReadMsgUDP is not modelled, no claim concerns it);
capWriteUDP: udp.WriteUDP; capSyscall: xnet.SyscallConn (the raw handle);
capSetDSCP: xnet.SetDSCP (outcome of SetDSCP). -/
structure UnderlyingPC where
  capRemoteAddr : Option Nat
  capSetBuffer  : Option ((Nat → Option Err) × (Nat → Option Err))
  capReader     : Option (Nat × Option Err)
  capWriter     : Option (Nat × Option Err)
  capReadUDP    : Option (List PDgram)
  capWriteUDP   : Option WriteUDPImpl
  capSyscall    : Option Nat
  capSetDSCP    : Option (Nat → Option Err)

/-- udpConn.RemoteAddr (conn.go lines 165-170): delegate when the
underlying connection implements xnet.RemoteAddr, else return nil.  The
Go signature has no error result. -/
def udpConnRemoteAddr (u : UnderlyingPC) : Option Nat :=
  match u.capRemoteAddr with
  | some a => some a
  | none => none

/-- udpConn.SetReadBuffer (conn.go lines 172-177). -/
def udpConnSetReadBuffer (u : UnderlyingPC) (n : Nat) : Option Err :=
  match u.capSetBuffer with
  | some f => f.1 n
  | none => some Err.unsupported

/-- udpConn.SetWriteBuffer (conn.go lines 179-184). -/
def udpConnSetWriteBuffer (u : UnderlyingPC) (n : Nat) : Option Err :=
  match u.capSetBuffer with
  | some f => f.2 n
  | none => some Err.unsupported

/-- udpConn.Read (conn.go lines 186-193): delegate when the underlying
connection implements io.Reader, else fail with errUnsupport. -/
def udpConnRead (u : UnderlyingPC) : Nat × Option Err :=
  match u.capReader with
  | some r => r
  | none => (0, some Err.unsupported)

/-- udpConn.Write (conn.go lines 265-272). -/
def udpConnWrite (u : UnderlyingPC) : Nat × Option Err :=
  match u.capWriter with
  | some r => r
  | none => (0, some Err.unsupported)

/-- The inner loop of udpConn.ReadFromUDP (conn.go lines 217-234), the
same discard loop again, over the datagrams the capable underlying
connection delivers. -/
def udpConnReadFromUDPLoop (rl : Option PacketLimiter) :
    Nat → List PDgram → PRes
  | _, [] => PRes.blocked
  | k, d :: ds =>
    match d.derr with
    | some e => PRes.rerr e
    | none =>
      match rl with
      | none => PRes.dgram d.payload d.host
      | some L =>
        if L.hasIn d.host = true then
          if L.waitIn k d.host d.payload.length < d.payload.length then
            udpConnReadFromUDPLoop (some L) (k + 1) ds
          else PRes.dgram d.payload d.host
        else PRes.dgram d.payload d.host

/-- udpConn.ReadFromUDP (conn.go lines 215-238): run the discard loop
when the underlying connection implements udp.ReadUDP, else fail with
errUnsupport. -/
def udpConnReadFromUDP (rl : Option PacketLimiter) (u : UnderlyingPC)
    (k : Nat) : PRes :=
  match u.capReadUDP with
  | some ds => udpConnReadFromUDPLoop rl k ds
  | none => PRes.rerr Err.unsupported

/-- The inner loop of udpConn.ReadMsgUDP (conn.go lines 242-259);
out-of-band data is not modelled. -/
def udpConnReadMsgUDPLoop (rl : Option PacketLimiter) :
    Nat → List PDgram → PRes
  | _, [] => PRes.blocked
  | k, d :: ds =>
    match d.derr with
    | some e => PRes.rerr e
    | none =>
      match rl with
      | none => PRes.dgram d.payload d.host
      | some L =>
        if L.hasIn d.host = true then
          if L.waitIn k d.host d.payload.length < d.payload.length then
            udpConnReadMsgUDPLoop (some L) (k + 1) ds
          else PRes.dgram d.payload d.host
        else PRes.dgram d.payload d.host

/-- udpConn.ReadMsgUDP (conn.go lines 240-263). -/
def udpConnReadMsgUDP (rl : Option PacketLimiter) (u : UnderlyingPC)
    (k : Nat) : PRes :=
  match u.capReadUDP with
  | some ds => udpConnReadMsgUDPLoop rl k ds
  | none => PRes.rerr Err.unsupported

/-- udpConn.WriteToUDP (conn.go lines 289-306): rate-limit check first
(silent drop returning (len(b), nil) on a short grant), then the
capability probe for udp.WriteUDP, failing with errUnsupport when absent.
The Bool records whether the underlying write was performed. -/
def udpConnWriteToUDP (rl : Option PacketLimiter) (u : UnderlyingPC)
    (b : List Nat) (host : Nat) : (Nat × Option Err) × Bool :=
  match rl with
  | some L =>
    if L.hasOut host = true ∧ L.waitOut host b.length < b.length then
      ((b.length, none), false)
    else
      match u.capWriteUDP with
      | some impl => (impl.toRes, true)
      | none => ((0, some Err.unsupported), false)
  | none =>
    match u.capWriteUDP with
    | some impl => (impl.toRes, true)
    | none => ((0, some Err.unsupported), false)

/-- udpConn.WriteMsgUDP (conn.go lines 308-325): same shape, result
(n, oobn, err). -/
def udpConnWriteMsgUDP (rl : Option PacketLimiter) (u : UnderlyingPC)
    (b : List Nat) (host : Nat) : (Nat × Nat × Option Err) × Bool :=
  match rl with
  | some L =>
    if L.hasOut host = true ∧ L.waitOut host b.length < b.length then
      ((b.length, 0, none), false)
    else
      match u.capWriteUDP with
      | some impl => (impl.msgRes, true)
      | none => ((0, 0, some Err.unsupported), false)
  | none =>
    match u.capWriteUDP with
    | some impl => (impl.msgRes, true)
    | none => ((0, 0, some Err.unsupported), false)

/-- udpConn.SyscallConn (conn.go lines 327-333): the raw handle when the
underlying connection implements xnet.SyscallConn, else errUnsupport. -/
def udpConnSyscallConn (u : UnderlyingPC) : Option Nat × Option Err :=
  match u.capSyscall with
  | some rc => (some rc, none)
  | none => (none, some Err.unsupported)

/-- udpConn.SetDSCP (conn.go lines 335-340): delegate when the underlying
connection implements xnet.SetDSCP, else a nil-error no-op. -/
def udpConnSetDSCP (u : UnderlyingPC) (n : Nat) : Option Err :=
  match u.capSetDSCP with
  | some f => f n
  | none => none

/-- Result of WrapConn: the raw input connection (fast path) or the
serverConn wrapper keyed by the remote host. -/
inductive WrappedStreamConn where
  | raw (id : Nat)
  | limited (id : Nat) (host : Nat)
deriving DecidableEq, Repr

/-- WrapConn (conn.go lines 28-38): return the input unchanged when the
rate limiter is nil, else the serverConn wrapper.  host stands for
net.SplitHostPort(c.RemoteAddr().String()). -/
def WrapConn (rl : Option RateLimiterM) (id host : Nat) :
    WrappedStreamConn :=
  match rl with
  | none => WrappedStreamConn.raw id
  | some _ => WrappedStreamConn.limited id host

/-- Result of WrapPacketConn: the raw input packet connection or the
packetConn wrapper. -/
inductive WrappedPacketConn where
  | rawP (id : Nat)
  | limitedP (id : Nat)
deriving DecidableEq, Repr

/-- WrapPacketConn (conn.go lines 106-114). -/
def WrapPacketConn (rl : Option PacketLimiter) (id : Nat) :
    WrappedPacketConn :=
  match rl with
  | none => WrappedPacketConn.rawP id
  | some _ => WrappedPacketConn.limitedP id

/-- The udpConn wrapper value: the wrapped packet connection and the
stored rate limiter. -/
structure UDPConnW where
  pcId : Nat
  rl   : Option PacketLimiter

/-- WrapUDPConn (conn.go lines 158-163): always builds the wrapper, with
no nil fast path. -/
def WrapUDPConn (rl : Option PacketLimiter) (id : Nat) : UDPConnW :=
  ⟨id, rl⟩

example : (serverConnRead none 0 4 ⟨2, none⟩ ⟨[], [1, 2, 3]⟩) =
    (([1, 2], none), ⟨[], [3]⟩) := by decide

example :
    (serverConnRun
      [⟨fun q => min 5 q, 12, ⟨12, none⟩⟩,
       ⟨fun q => min 5 q, 12, ⟨0, none⟩⟩,
       ⟨fun q => min 5 q, 12, ⟨0, none⟩⟩] ⟨[], List.range 12⟩).1 =
    [[0, 1, 2, 3, 4], [5, 6, 7, 8, 9], [10, 11]] := by decide

example :
    (serverConnWrite (some ⟨fun _ => none, fun _ => some (fun _ m => min 5 m)⟩)
      0 (fun _ c => (c.length, none)) 12 (List.range 12)).chunks =
    [[0, 1, 2, 3, 4], [5, 6, 7, 8, 9], [10, 11]] := by decide

/-- Single-call conservation: with an ingress limiter present, one
serverConn.Read moves bytes between the source stream, the staging buffer
and the caller without loss, duplication or reordering. -/
theorem serverConnRead_inv (r : RateLimiterM) (raddr blen : Nat)
    (w : Nat → Nat) (res : ReadResult) (st : ServerSt)
    (hin : r.inL raddr = some w) :
    (serverConnRead (some r) raddr blen res st).1.1
      ++ (serverConnRead (some r) raddr blen res st).2.rbuf
      ++ (serverConnRead (some r) raddr blen res st).2.src
      = st.rbuf ++ st.src := by
  simp only [serverConnRead, hin]
  by_cases hb : 0 < st.rbuf.length
  · simp only [hb, if_true]
    rw [List.take_append_drop]
  · have hnil : st.rbuf = [] := List.length_eq_zero.mp (by omega)
    simp only [hb, if_false]
    cases hre : res.rerr with
    | some e =>
      simp only [hnil, List.append_nil, List.nil_append]
      exact List.take_append_drop res.nn st.src
    | none =>
      simp only [hnil, List.nil_append]
      rw [← List.take_take, List.take_append_drop, List.take_append_drop]

/-- Multi-call conservation for serverConnRun. -/
theorem serverConnRun_inv (calls : List ReadCall) (st : ServerSt) :
    (serverConnRun calls st).1.flatten
      ++ (serverConnRun calls st).2.rbuf
      ++ (serverConnRun calls st).2.src
      = st.rbuf ++ st.src := by
  induction calls generalizing st with
  | nil => simp [serverConnRun]
  | cons c cs ih =>
    have hstep := serverConnRead_inv
      ⟨fun _ => some c.wait, fun _ => none⟩ 0 c.blen c.wait c.res st rfl
    have hrest := ih
      (serverConnRead (some ⟨fun _ => some c.wait, fun _ => none⟩)
        0 c.blen c.res st).2
    simp only [serverConnRun, List.flatten_cons]
    simp only [List.append_assoc] at hstep hrest ⊢
    rw [hrest, hstep]

/-- Claim C1: stream no-loss and ordering.  For every byte sequence src
produced by the underlying connection and every ingress limiter obeying
0 <= granted <= requested (with per-call read counts bounded by the
caller buffer), the chunks delivered by successive serverConn.Read calls,
followed by the bytes still staged and the bytes still in the source,
reassemble src exactly: nothing is duplicated, dropped or reordered, and
staged bytes precede newer source bytes. -/
theorem C1_stream_no_loss (calls : List ReadCall) (src : List Nat)
    (_hw : ∀ c ∈ calls, ∀ q, c.wait q ≤ q)
    (_hb : ∀ c ∈ calls, c.res.nn ≤ c.blen) :
    (serverConnRun calls ⟨[], src⟩).1.flatten
      ++ (serverConnRun calls ⟨[], src⟩).2.rbuf
      ++ (serverConnRun calls ⟨[], src⟩).2.src = src := by
  simpa using serverConnRun_inv calls ⟨[], src⟩

/-- Witness for C1: the spec's concrete scenario, a limiter granting 5
bytes per call against a 12-byte stream read with a 12-byte buffer. -/
theorem C1_stream_no_loss_witness :
    (serverConnRun
        [⟨fun q => min 5 q, 12, ⟨12, none⟩⟩,
         ⟨fun q => min 5 q, 12, ⟨0, none⟩⟩,
         ⟨fun q => min 5 q, 12, ⟨0, none⟩⟩] ⟨[], List.range 12⟩).1.flatten
      ++ (serverConnRun
        [⟨fun q => min 5 q, 12, ⟨12, none⟩⟩,
         ⟨fun q => min 5 q, 12, ⟨0, none⟩⟩,
         ⟨fun q => min 5 q, 12, ⟨0, none⟩⟩] ⟨[], List.range 12⟩).2.rbuf
      ++ (serverConnRun
        [⟨fun q => min 5 q, 12, ⟨12, none⟩⟩,
         ⟨fun q => min 5 q, 12, ⟨0, none⟩⟩,
         ⟨fun q => min 5 q, 12, ⟨0, none⟩⟩] ⟨[], List.range 12⟩).2.src
      = List.range 12 :=
  C1_stream_no_loss _ _
    (by
      intro c hc q
      fin_cases hc <;> exact Nat.min_le_right 5 q)
    (by
      intro c hc
      fin_cases hc <;> decide)

/-- Claim C6: staged-bytes read path.  With an ingress limiter present
and a non-empty staging buffer, serverConn.Read ignores the underlying
connection entirely (the equation holds for every read oracle res and
leaves src untouched): it asks Wait(min(len(b), rbuf.Len())), drains
exactly the granted bytes from the front of the staging buffer and
returns them with a nil error. -/
theorem C6_staged_read (r : RateLimiterM) (raddr blen : Nat)
    (w : Nat → Nat) (res : ReadResult) (st : ServerSt)
    (hin : r.inL raddr = some w) (hw : ∀ q, w q ≤ q)
    (hbuf : st.rbuf ≠ []) :
    serverConnRead (some r) raddr blen res st
      = ((st.rbuf.take (w (min blen st.rbuf.length)), none),
         ⟨st.rbuf.drop (w (min blen st.rbuf.length)), st.src⟩)
    ∧ (st.rbuf.take (w (min blen st.rbuf.length))).length
        = w (min blen st.rbuf.length) := by
  have hb : 0 < st.rbuf.length := List.length_pos.mpr hbuf
  constructor
  · simp only [serverConnRead, hin, hb, if_true]
  · rw [List.length_take]
    have h1 : w (min blen st.rbuf.length) ≤ min blen st.rbuf.length :=
      hw _
    omega

/-- Witness for C6: two staged bytes, a four-byte caller buffer, a
limiter granting one byte. -/
theorem C6_staged_read_witness :
    serverConnRead (some ⟨fun _ => some (fun q => min 1 q), fun _ => none⟩)
        0 4 ⟨9, some (Err.other 3)⟩ ⟨[6, 7], [8]⟩
      = (([6], none), ⟨[7], [8]⟩)
    ∧ (([6, 7] : List Nat).take ((fun q => min 1 q) (min 4 2))).length
        = (fun q => min 1 q) (min 4 2) := by
  have h := C6_staged_read
    ⟨fun _ => some (fun q => min 1 q), fun _ => none⟩ 0 4
    (fun q => min 1 q) ⟨9, some (Err.other 3)⟩ ⟨[6, 7], [8]⟩
    rfl (fun q => Nat.min_le_right 1 q) (by decide)
  exact ⟨h.1, h.2⟩

/-- Counterexample to claim C5 as stated: the claim asserts that on an
underlying read error serverConn.Read reports n = 0 bytes delivered, but
the source returns nn, err unchanged, and io.Reader permits an underlying
read to deliver bytes together with an error.  Here the underlying read
delivers 2 bytes alongside the error and the wrapper reports those 2
bytes, not 0. -/
theorem C5_read_error_counterexample :
    serverConnRead (some ⟨fun _ => some (fun q => q), fun _ => none⟩) 0 4
        ⟨2, some (Err.other 7)⟩ ⟨[], [5, 6, 9]⟩
      = (([5, 6], some (Err.other 7)), ⟨[], [9]⟩)
    ∧ ((serverConnRead (some ⟨fun _ => some (fun q => q), fun _ => none⟩)
          0 4 ⟨2, some (Err.other 7)⟩ ⟨[], [5, 6, 9]⟩).1.1).length ≠ 0 := by
  constructor
  · rfl
  · decide

/-- Claim C5 amended: with an ingress limiter present and an empty
staging buffer, if the underlying read reports an error then
serverConn.Read propagates that error unchanged and returns exactly the
nn bytes the underlying read delivered (n = 0 exactly when the underlying
read delivered none), without consulting the limiter: the right-hand side
does not mention the limiter w at all. -/
theorem C5_read_error_propagation (r : RateLimiterM) (raddr blen : Nat)
    (w : Nat → Nat) (nn : Nat) (e : Err) (st : ServerSt)
    (hin : r.inL raddr = some w) (hbuf : st.rbuf = [])
    (hnn : nn ≤ st.src.length) :
    serverConnRead (some r) raddr blen ⟨nn, some e⟩ st
      = ((st.src.take nn, some e), ⟨st.rbuf, st.src.drop nn⟩)
    ∧ (st.src.take nn).length = nn := by
  constructor
  · simp only [serverConnRead, hin]
    simp [hbuf]
  · rw [List.length_take]
    omega

/-- Witness for the amended C5. -/
theorem C5_read_error_propagation_witness :
    serverConnRead (some ⟨fun _ => some (fun q => q), fun _ => none⟩) 0 4
        ⟨2, some (Err.other 7)⟩ ⟨[], [5, 6, 9]⟩
      = (([5, 6], some (Err.other 7)), ⟨[], [9]⟩)
    ∧ (([5, 6, 9] : List Nat).take 2).length = 2 := by
  have h := C5_read_error_propagation
    ⟨fun _ => some (fun q => q), fun _ => none⟩ 0 4 (fun q => q) 2
    (Err.other 7) ⟨[], [5, 6, 9]⟩ rfl rfl (by decide)
  exact ⟨h.1, h.2⟩

/-- Completed write loops deliver a faithful prefix: when the loop
returned (finished), under the io.Writer contract (a short count only
together with an error), the unwritten rest is exactly the buffer beyond
the reported count, the reported count never exceeds the buffer, the
issued chunks concatenate to a prefix of the buffer, and an error-free
return wrote everything. -/
theorem serverConnWriteLoop_complete (wait : Nat → Nat → Nat)
    (uw : Nat → List Nat → Nat × Option Err)
    (huw : ∀ j c, (uw j c).1 ≤ c.length
      ∧ ((uw j c).2 = none → (uw j c).1 = c.length)) :
    ∀ fuel k b,
      (serverConnWriteLoop wait uw fuel k b).finished = true →
      (serverConnWriteLoop wait uw fuel k b).rem
          = b.drop (serverConnWriteLoop wait uw fuel k b).n
      ∧ (serverConnWriteLoop wait uw fuel k b).n ≤ b.length
      ∧ (∃ t, (serverConnWriteLoop wait uw fuel k b).chunks.flatten ++ t = b)
      ∧ ((serverConnWriteLoop wait uw fuel k b).err = none →
          (serverConnWriteLoop wait uw fuel k b).chunks.flatten = b
          ∧ (serverConnWriteLoop wait uw fuel k b).n = b.length) := by
  intro fuel
  induction fuel with
  | zero =>
    intro k b hfin
    by_cases hb : b.length = 0
    · have hnil : b = [] := List.length_eq_zero.mp hb
      subst hnil
      simp [serverConnWriteLoop]
    · simp [serverConnWriteLoop, hb] at hfin
  | succ fuel ih =>
    intro k b hfin
    by_cases hb : b.length = 0
    · have hnil : b = [] := List.length_eq_zero.mp hb
      subst hnil
      simp [serverConnWriteLoop]
    · have hnn1 : (uw k (b.take (wait k b.length))).1
          ≤ (b.take (wait k b.length)).length := (huw k _).1
      have htlen : (b.take (wait k b.length)).length ≤ b.length := by
        rw [List.length_take]; omega
      cases he : (uw k (b.take (wait k b.length))).2 with
      | some e =>
        have hR : serverConnWriteLoop wait uw (fuel + 1) k b
            = ⟨(uw k (b.take (wait k b.length))).1, some e,
               [b.take (wait k b.length)],
               b.drop (uw k (b.take (wait k b.length))).1, true⟩ := by
          rw [serverConnWriteLoop]
          simp only [hb, if_false, he]
        have hn : (serverConnWriteLoop wait uw (fuel + 1) k b).n
            = (uw k (b.take (wait k b.length))).1 := by rw [hR]
        have herr2 : (serverConnWriteLoop wait uw (fuel + 1) k b).err
            = some e := by rw [hR]
        have hch : (serverConnWriteLoop wait uw (fuel + 1) k b).chunks
            = [b.take (wait k b.length)] := by rw [hR]
        have hrem : (serverConnWriteLoop wait uw (fuel + 1) k b).rem
            = b.drop (uw k (b.take (wait k b.length))).1 := by rw [hR]
        refine ⟨by rw [hrem, hn], by rw [hn]; omega, ?_, ?_⟩
        · refine ⟨b.drop (wait k b.length), ?_⟩
          rw [hch]
          simp only [List.flatten_cons, List.flatten_nil, List.append_nil]
          exact List.take_append_drop _ b
        · intro hcontra
          rw [herr2] at hcontra
          exact absurd hcontra (by simp)
      | none =>
        have hnn : (uw k (b.take (wait k b.length))).1
            = (b.take (wait k b.length)).length := (huw k _).2 he
        have hR : serverConnWriteLoop wait uw (fuel + 1) k b
            = ⟨(uw k (b.take (wait k b.length))).1
                 + (serverConnWriteLoop wait uw fuel (k + 1)
                     (b.drop (uw k (b.take (wait k b.length))).1)).n,
               (serverConnWriteLoop wait uw fuel (k + 1)
                 (b.drop (uw k (b.take (wait k b.length))).1)).err,
               b.take (wait k b.length)
                 :: (serverConnWriteLoop wait uw fuel (k + 1)
                     (b.drop (uw k (b.take (wait k b.length))).1)).chunks,
               (serverConnWriteLoop wait uw fuel (k + 1)
                 (b.drop (uw k (b.take (wait k b.length))).1)).rem,
               (serverConnWriteLoop wait uw fuel (k + 1)
                 (b.drop (uw k (b.take (wait k b.length))).1)).finished⟩ := by
          rw [serverConnWriteLoop]
          simp only [hb, if_false, he]
        have hn : (serverConnWriteLoop wait uw (fuel + 1) k b).n
            = (uw k (b.take (wait k b.length))).1
              + (serverConnWriteLoop wait uw fuel (k + 1)
                  (b.drop (uw k (b.take (wait k b.length))).1)).n := by
          rw [hR]
        have herr2 : (serverConnWriteLoop wait uw (fuel + 1) k b).err
            = (serverConnWriteLoop wait uw fuel (k + 1)
                (b.drop (uw k (b.take (wait k b.length))).1)).err := by
          rw [hR]
        have hch : (serverConnWriteLoop wait uw (fuel + 1) k b).chunks
            = b.take (wait k b.length)
              :: (serverConnWriteLoop wait uw fuel (k + 1)
                  (b.drop (uw k (b.take (wait k b.length))).1)).chunks := by
          rw [hR]
        have hrem : (serverConnWriteLoop wait uw (fuel + 1) k b).rem
            = (serverConnWriteLoop wait uw fuel (k + 1)
                (b.drop (uw k (b.take (wait k b.length))).1)).rem := by
          rw [hR]
        have hfin2 : (serverConnWriteLoop wait uw fuel (k + 1)
            (b.drop (uw k (b.take (wait k b.length))).1)).finished = true := by
          have := hfin
          rw [hR] at this
          exact this
        obtain ⟨ih1, ih2, ⟨t, ih3⟩, ih4⟩ := ih (k + 1)
          (b.drop (uw k (b.take (wait k b.length))).1) hfin2
        have hdlen : (b.drop (uw k (b.take (wait k b.length))).1).length
            = b.length - (uw k (b.take (wait k b.length))).1 :=
          List.length_drop _ _
        have key : b.take (wait k b.length)
            ++ b.drop ((uw k (b.take (wait k b.length))).1) = b := by
          have h2 : (uw k (b.take (wait k b.length))).1
              = min (wait k b.length) b.length := by
            rw [hnn, List.length_take]
          rw [h2]
          have h3 : b.take (wait k b.length)
              = b.take (min (wait k b.length) b.length) := by
            rw [List.take_eq_take]
            omega
          rw [h3, List.take_append_drop]
        refine ⟨?_, by rw [hn]; omega, ?_, ?_⟩
        · rw [hrem, hn, ih1, List.drop_drop, Nat.add_comm]
        · refine ⟨t, ?_⟩
          rw [hch]
          simp only [List.flatten_cons, List.append_assoc, ih3]
          exact key
        · intro herr
          rw [herr2] at herr
          obtain ⟨ih5, ih6⟩ := ih4 herr
          constructor
          · rw [hch]
            simp only [List.flatten_cons, ih5]
            exact key
          · rw [hn, ih6, hdlen]
            omega

/-- With a limiter granting at least one byte per Wait for every
non-empty request and an io.Writer-conforming underlying connection, the
write loop finishes within len(b) iterations. -/
theorem serverConnWriteLoop_finishes (wait : Nat → Nat → Nat)
    (uw : Nat → List Nat → Nat × Option Err)
    (hw : ∀ j m, 0 < m → 0 < wait j m)
    (huw : ∀ j c, (uw j c).1 ≤ c.length
      ∧ ((uw j c).2 = none → (uw j c).1 = c.length)) :
    ∀ fuel k b, b.length ≤ fuel →
      (serverConnWriteLoop wait uw fuel k b).finished = true := by
  intro fuel
  induction fuel with
  | zero =>
    intro k b hlen
    have hnil : b = [] := List.length_eq_zero.mp (by omega)
    subst hnil
    simp [serverConnWriteLoop]
  | succ fuel ih =>
    intro k b hlen
    by_cases hb : b.length = 0
    · have hnil : b = [] := List.length_eq_zero.mp hb
      subst hnil
      simp [serverConnWriteLoop]
    · cases he : (uw k (b.take (wait k b.length))).2 with
      | some e =>
        rw [serverConnWriteLoop]
        simp only [hb, if_false, he]
      | none =>
        rw [serverConnWriteLoop]
        simp only [hb, if_false, he]
        have hnn : (uw k (b.take (wait k b.length))).1
            = (b.take (wait k b.length)).length := (huw k _).2 he
        have hg : 0 < wait k b.length := hw k b.length (by omega)
        have hpos : 0 < (uw k (b.take (wait k b.length))).1 := by
          rw [hnn, List.length_take]
          omega
        exact ih (k + 1) _ (by rw [List.length_drop]; omega)

/-- Egress limiter used by the write witnesses: no ingress limiter,
egress limiter granting min(5, requested) on every Wait. -/
def min5Out : RateLimiterM :=
  ⟨fun _ => none, fun _ => some (fun _ m => min 5 m)⟩

/-- Underlying connection used by the write witnesses: every Conn.Write
accepts its whole chunk with a nil error. -/
def fullWriter : Nat → List Nat → Nat × Option Err :=
  fun _ c => (c.length, none)

/-- Claim C3: write chunking correctness.  With an egress limiter present
and an underlying connection obeying the io.Writer contract (a short
count only together with an error), any serverConn.Write execution that
returns satisfies: the reported count n is exactly the delivered prefix
(the unwritten rest is b beyond n, and n never exceeds len(b)); the
chunks issued to the underlying connection concatenate to a prefix of b
in order; and when no write error occurred the chunks concatenate to
exactly b, n = len(b) is reported, and the chunk lengths sum to len(b).
An errored execution stops at the failing write with the partial count
(the rem equation at that n). -/
theorem C3_write_chunking (r : RateLimiterM) (raddr : Nat)
    (w : Nat → Nat → Nat) (uw : Nat → List Nat → Nat × Option Err)
    (fuel : Nat) (b : List Nat)
    (hout : r.outL raddr = some w)
    (huw : ∀ j c, (uw j c).1 ≤ c.length
      ∧ ((uw j c).2 = none → (uw j c).1 = c.length))
    (hfin : (serverConnWrite (some r) raddr uw fuel b).finished = true) :
    (serverConnWrite (some r) raddr uw fuel b).rem
        = b.drop (serverConnWrite (some r) raddr uw fuel b).n
    ∧ (serverConnWrite (some r) raddr uw fuel b).n ≤ b.length
    ∧ (∃ t, (serverConnWrite (some r) raddr uw fuel b).chunks.flatten
        ++ t = b)
    ∧ ((serverConnWrite (some r) raddr uw fuel b).err = none →
        (serverConnWrite (some r) raddr uw fuel b).chunks.flatten = b
        ∧ (serverConnWrite (some r) raddr uw fuel b).n = b.length
        ∧ ((serverConnWrite (some r) raddr uw fuel b).chunks.map
            List.length).sum = b.length) := by
  have hrw : serverConnWrite (some r) raddr uw fuel b
      = serverConnWriteLoop w uw fuel 0 b := by
    simp [serverConnWrite, hout]
  rw [hrw] at hfin ⊢
  obtain ⟨h1, h2, h3, h4⟩ :=
    serverConnWriteLoop_complete w uw huw fuel 0 b hfin
  refine ⟨h1, h2, h3, ?_⟩
  intro herr
  obtain ⟨h5, h6⟩ := h4 herr
  refine ⟨h5, h6, ?_⟩
  have hlen := congrArg List.length h5
  rw [List.length_flatten] at hlen
  exact hlen

/-- Witness for C3: a 12-byte buffer against a limiter granting 5 per
call, full-write underlying connection. -/
theorem C3_write_chunking_witness :
    (serverConnWrite (some min5Out) 0 fullWriter 12 (List.range 12)).rem
        = (List.range 12).drop
            (serverConnWrite (some min5Out) 0 fullWriter 12
              (List.range 12)).n
    ∧ (serverConnWrite (some min5Out) 0 fullWriter 12 (List.range 12)).n
        ≤ (List.range 12).length
    ∧ (∃ t, (serverConnWrite (some min5Out) 0 fullWriter 12
        (List.range 12)).chunks.flatten ++ t = List.range 12)
    ∧ ((serverConnWrite (some min5Out) 0 fullWriter 12
          (List.range 12)).err = none →
        (serverConnWrite (some min5Out) 0 fullWriter 12
          (List.range 12)).chunks.flatten = List.range 12
        ∧ (serverConnWrite (some min5Out) 0 fullWriter 12
            (List.range 12)).n = (List.range 12).length
        ∧ ((serverConnWrite (some min5Out) 0 fullWriter 12
            (List.range 12)).chunks.map List.length).sum
          = (List.range 12).length) :=
  C3_write_chunking min5Out 0 (fun _ m => min 5 m) fullWriter 12
    (List.range 12) rfl
    (fun j c => ⟨Nat.le_refl _, fun _ => rfl⟩)
    (by decide)

/-- With the zero-granting limiter every iteration of the write loop
issues the empty chunk, the underlying write of the empty chunk returns
(0, nil), the buffer never shrinks, and the loop never exits, whatever
the fuel. -/
theorem serverConnWriteLoop_zero_spins :
    ∀ fuel k,
      (serverConnWriteLoop (fun _ _ => 0) (fun _ c => (c.length, none))
        fuel k [1]).finished = false := by
  intro fuel
  induction fuel with
  | zero =>
    intro k
    simp [serverConnWriteLoop]
  | succ fuel ih =>
    intro k
    rw [serverConnWriteLoop]
    simpa using ih (k + 1)

/-- Counterexample to claim C9 as stated: the claimed limiter contract
0 <= granted <= requested admits a limiter whose every Wait grants 0
bytes.  Against it serverConn.Write of a non-empty buffer loops forever:
each iteration issues the empty chunk b[:0], the underlying write of the
empty chunk conforms to io.Writer by returning (0, nil), and the buffer
never shrinks, so for no bound on the number of iterations does the call
return. -/
theorem C9_write_termination_counterexample :
    ¬ ∃ fuel, (serverConnWrite
        (some ⟨fun _ => none, fun _ => some (fun _ _ => 0)⟩) 0
        (fun _ c => (c.length, none)) fuel [1]).finished = true := by
  rintro ⟨fuel, hfin⟩
  have hspin := serverConnWriteLoop_zero_spins fuel 0
  have hrw : serverConnWrite
      (some ⟨fun _ => none, fun _ => some (fun _ _ => 0)⟩) 0
      (fun _ c => (c.length, none)) fuel [1]
      = serverConnWriteLoop (fun _ _ => 0) (fun _ c => (c.length, none))
          fuel 0 [1] := rfl
  rw [hrw, hspin] at hfin
  simp at hfin

/-- Claim C9 amended: serverConn.Write terminates for every finite
buffer provided each Wait grants at least one byte for a non-empty
request (1 <= granted <= requested) and the underlying connection obeys
the io.Writer contract; the loop then runs at most len(b) iterations
(fuel len(b) suffices). -/
theorem C9_write_termination (r : RateLimiterM) (raddr : Nat)
    (w : Nat → Nat → Nat) (uw : Nat → List Nat → Nat × Option Err)
    (fuel : Nat) (b : List Nat)
    (hout : r.outL raddr = some w)
    (hw : ∀ j m, 0 < m → 0 < w j m ∧ w j m ≤ m)
    (huw : ∀ j c, (uw j c).1 ≤ c.length
      ∧ ((uw j c).2 = none → (uw j c).1 = c.length))
    (hfuel : b.length ≤ fuel) :
    (serverConnWrite (some r) raddr uw fuel b).finished = true := by
  have hrw : serverConnWrite (some r) raddr uw fuel b
      = serverConnWriteLoop w uw fuel 0 b := by
    simp [serverConnWrite, hout]
  rw [hrw]
  exact serverConnWriteLoop_finishes w uw
    (fun j m hm => (hw j m hm).1) huw fuel 0 b hfuel

/-- Witness for the amended C9. -/
theorem C9_write_termination_witness :
    (serverConnWrite (some min5Out) 0 fullWriter 12
      (List.range 12)).finished = true :=
  C9_write_termination min5Out 0 (fun _ m => min 5 m) fullWriter 12
    (List.range 12) rfl
    (fun j m hm => ⟨Nat.lt_min.mpr ⟨by omega, hm⟩, Nat.min_le_right 5 m⟩)
    (fun j c => ⟨Nat.le_refl _, fun _ => rfl⟩)
    (by decide)

/-- udpConn.ReadFrom computes the same function as packetConn.ReadFrom:
the source duplicates the discard loop verbatim. -/
theorem udpConnReadFrom_eq (rl : Option PacketLimiter) :
    ∀ k ds, udpConnReadFrom rl k ds = packetConnReadFrom rl k ds := by
  intro k ds
  induction ds generalizing k rl with
  | nil => simp [udpConnReadFrom, packetConnReadFrom]
  | cons d ds ih =>
    simp only [udpConnReadFrom, packetConnReadFrom]
    cases hd : d.derr with
    | some e => rfl
    | none =>
      cases rl with
      | none => rfl
      | some L =>
        by_cases hin : L.hasIn d.host = true
        · simp only [hin, if_true]
          by_cases hlt : L.waitIn k d.host d.payload.length
              < d.payload.length
          · simp only [hlt, if_true]
            exact ih (some L) (k + 1)
          · simp only [hlt, if_false]
        · simp [hin]

/-- Any datagram returned by the packetConn.ReadFrom loop is the first
admissible event: it is delivered whole (full payload), its grant — when
an ingress limiter applies to its source host — covered its full size,
and every earlier event was an error-free datagram skipped exactly
because its limiter grant fell short of its size. -/
theorem packetConnReadFrom_dgram (rl : Option PacketLimiter) :
    ∀ ds k p h, packetConnReadFrom rl k ds = PRes.dgram p h →
      ∃ i, (∃ rest, ds.drop i = ⟨p, h, none⟩ :: rest)
        ∧ (∀ L, rl = some L → L.hasIn h = true →
            p.length ≤ L.waitIn (k + i) h p.length)
        ∧ ∀ j, j < i →
            (ds.getD j default).derr = none
            ∧ ∃ L, rl = some L
              ∧ L.hasIn (ds.getD j default).host = true
              ∧ L.waitIn (k + j) (ds.getD j default).host
                  (ds.getD j default).payload.length
                < (ds.getD j default).payload.length := by
  intro ds
  induction ds with
  | nil =>
    intro k p h hres
    simp [packetConnReadFrom] at hres
  | cons d ds ih =>
    intro k p h hres
    simp only [packetConnReadFrom] at hres
    cases hd : d.derr with
    | some e =>
      simp only [hd] at hres
      exact PRes.noConfusion hres
    | none =>
      simp only [hd] at hres
      cases rl with
      | none =>
        have hres2 : PRes.dgram d.payload d.host = PRes.dgram p h := hres
        injection hres2 with hp hh
        have hdst : d = ⟨p, h, none⟩ := by rw [← hp, ← hh, ← hd]
        refine ⟨0, ⟨ds, ?_⟩, ?_, ?_⟩
        · rw [List.drop_zero, hdst]
        · intro L2 hL2
          exact absurd hL2 (by simp)
        · intro j hj
          omega
      | some L =>
        have hres2 : (if L.hasIn d.host = true then
            (if L.waitIn k d.host d.payload.length < d.payload.length then
              packetConnReadFrom (some L) (k + 1) ds
            else PRes.dgram d.payload d.host)
          else PRes.dgram d.payload d.host) = PRes.dgram p h := hres
        by_cases hin : L.hasIn d.host = true
        · rw [if_pos hin] at hres2
          by_cases hlt : L.waitIn k d.host d.payload.length
              < d.payload.length
          · rw [if_pos hlt] at hres2
            obtain ⟨i, ⟨rest, hdrop⟩, hgrant, hskip⟩ := ih (k + 1) p h hres2
            refine ⟨i + 1, ⟨rest, ?_⟩, ?_, ?_⟩
            · rw [List.drop_succ_cons]
              exact hdrop
            · intro L2 hL2 hin2
              have heq : k + 1 + i = k + (i + 1) := by omega
              have hg := hgrant L2 hL2 hin2
              rw [heq] at hg
              exact hg
            · intro j hj
              cases j with
              | zero =>
                rw [List.getD_cons_zero]
                refine ⟨hd, L, rfl, hin, ?_⟩
                rw [Nat.add_zero]
                exact hlt
              | succ j =>
                rw [List.getD_cons_succ]
                have hj2 : j < i := by omega
                obtain ⟨h1, L2, hL2, h2, h3⟩ := hskip j hj2
                have heq : k + 1 + j = k + (j + 1) := by omega
                rw [heq] at h3
                exact ⟨h1, L2, hL2, h2, h3⟩
          · rw [if_neg hlt] at hres2
            injection hres2 with hp hh
            have hdst : d = ⟨p, h, none⟩ := by rw [← hp, ← hh, ← hd]
            refine ⟨0, ⟨ds, ?_⟩, ?_, ?_⟩
            · rw [List.drop_zero, hdst]
            · intro L2 hL2 hin2
              injection hL2 with hL3
              subst hL3
              rw [Nat.add_zero, ← hp, ← hh]
              omega
            · intro j hj
              omega
        · rw [if_neg hin] at hres2
          injection hres2 with hp hh
          have hdst : d = ⟨p, h, none⟩ := by rw [← hp, ← hh, ← hd]
          refine ⟨0, ⟨ds, ?_⟩, ?_, ?_⟩
          · rw [List.drop_zero, hdst]
          · intro L2 hL2 hin2
            injection hL2 with hL3
            subst hL3
            rw [← hh] at hin2
            exact absurd hin2 hin
          · intro j hj
            omega

/-- Claim C2: datagram read atomicity.  Whenever a ReadFrom of the
datagram wrapper returns a datagram, that datagram is the first event of
the underlying stream that was admissible: it is returned whole, never
truncated; if an ingress limiter applies to its source host, its Wait
grant covered the datagram's full size; and every earlier datagram was
discarded precisely because its limiter grant fell short of its size (an
under-granted datagram is never returned).  The second conjunct carries
the same property over to udpConn.ReadFrom, whose loop computes the same
function. -/
theorem C2_datagram_atomicity (rl : Option PacketLimiter) (k : Nat)
    (ds : List PDgram) (p : List Nat) (h : Nat)
    (hres : packetConnReadFrom rl k ds = PRes.dgram p h) :
    (∃ i, (∃ rest, ds.drop i = ⟨p, h, none⟩ :: rest)
      ∧ (∀ L, rl = some L → L.hasIn h = true →
          p.length ≤ L.waitIn (k + i) h p.length)
      ∧ ∀ j, j < i →
          (ds.getD j default).derr = none
          ∧ ∃ L, rl = some L
            ∧ L.hasIn (ds.getD j default).host = true
            ∧ L.waitIn (k + j) (ds.getD j default).host
                (ds.getD j default).payload.length
              < (ds.getD j default).payload.length)
    ∧ ∀ rl2 k2 ds2,
        udpConnReadFrom rl2 k2 ds2 = packetConnReadFrom rl2 k2 ds2 :=
  ⟨packetConnReadFrom_dgram rl ds k p h hres,
   fun rl2 k2 ds2 => udpConnReadFrom_eq rl2 k2 ds2⟩

/-- The spec's concrete datagram scenario: an ingress limiter granting 0
bytes to host 1 and everything to other hosts, no egress limiting. -/
def dropHost1Lim : PacketLimiter :=
  ⟨fun _ => true, fun _ hst n => if hst = 1 then 0 else n,
   fun _ => false, fun _ _ => 0⟩

/-- The spec's concrete datagram scenario: a datagram from host 1
followed by one from host 2. -/
def c2Events : List PDgram :=
  [⟨[1, 2, 3], 1, none⟩, ⟨[4, 5], 2, none⟩]

/-- Witness for C2: the host-1 datagram is discarded, the host-2
datagram is returned whole on the first call. -/
theorem C2_datagram_atomicity_witness :
    (∃ i, (∃ rest, c2Events.drop i = ⟨[4, 5], 2, none⟩ :: rest)
      ∧ (∀ L, (some dropHost1Lim : Option PacketLimiter) = some L →
          L.hasIn 2 = true →
          ([4, 5] : List Nat).length ≤ L.waitIn (0 + i) 2
            ([4, 5] : List Nat).length)
      ∧ ∀ j, j < i →
          (c2Events.getD j default).derr = none
          ∧ ∃ L, (some dropHost1Lim : Option PacketLimiter) = some L
            ∧ L.hasIn (c2Events.getD j default).host = true
            ∧ L.waitIn (0 + j) (c2Events.getD j default).host
                (c2Events.getD j default).payload.length
              < (c2Events.getD j default).payload.length)
    ∧ ∀ rl2 k2 ds2,
        udpConnReadFrom rl2 k2 ds2 = packetConnReadFrom rl2 k2 ds2 :=
  C2_datagram_atomicity (some dropHost1Lim) 0 c2Events [4, 5] 2 (by decide)

/-- Claim C4: datagram write silent drop.  When an egress limiter exists
for the destination host and its Wait(len(buffer)) grant falls short of
the buffer length, packetConn.WriteTo, udpConn.WriteTo,
udpConn.WriteToUDP and udpConn.WriteMsgUDP all perform no underlying
write (the Bool component is false) and report full success
(len(buffer), nil) to the caller. -/
theorem C4_datagram_write_drop (L : PacketLimiter) (u : UnderlyingPC)
    (uw : List Nat → Nat → Nat × Option Err) (p : List Nat) (host : Nat)
    (hout : L.hasOut host = true)
    (hlt : L.waitOut host p.length < p.length) :
    packetConnWriteTo (some L) uw p host = ((p.length, none), false)
    ∧ udpConnWriteTo (some L) uw p host = ((p.length, none), false)
    ∧ udpConnWriteToUDP (some L) u p host = ((p.length, none), false)
    ∧ udpConnWriteMsgUDP (some L) u p host
        = ((p.length, 0, none), false) := by
  refine ⟨?_, ?_, ?_, ?_⟩
  · simp only [packetConnWriteTo]
    rw [if_pos ⟨hout, hlt⟩]
  · simp only [udpConnWriteTo]
    rw [if_pos ⟨hout, hlt⟩]
  · simp only [udpConnWriteToUDP]
    rw [if_pos ⟨hout, hlt⟩]
  · simp only [udpConnWriteMsgUDP]
    rw [if_pos ⟨hout, hlt⟩]

/-- An underlying packet connection implementing none of the optional
capability interfaces. -/
def noCapPC : UnderlyingPC :=
  ⟨none, none, none, none, none, none, none, none⟩

/-- An egress-only limiter granting 0 bytes to every destination. -/
def zeroOutLim : PacketLimiter :=
  ⟨fun _ => false, fun _ _ _ => 0, fun _ => true, fun _ _ => 0⟩

/-- Witness for C4: a two-byte datagram against a zero-granting egress
limiter is dropped by all four write paths with reported success. -/
theorem C4_datagram_write_drop_witness :
    packetConnWriteTo (some zeroOutLim) (fun p _ => (p.length, none))
        [8, 9] 5 = ((([8, 9] : List Nat).length, none), false)
    ∧ udpConnWriteTo (some zeroOutLim) (fun p _ => (p.length, none))
        [8, 9] 5 = ((([8, 9] : List Nat).length, none), false)
    ∧ udpConnWriteToUDP (some zeroOutLim) noCapPC [8, 9] 5
        = ((([8, 9] : List Nat).length, none), false)
    ∧ udpConnWriteMsgUDP (some zeroOutLim) noCapPC [8, 9] 5
        = ((([8, 9] : List Nat).length, 0, none), false) :=
  C4_datagram_write_drop zeroOutLim noCapPC (fun p _ => (p.length, none))
    [8, 9] 5 rfl (by decide)

/-- Claim C10: in udpConn.WriteToUDP and udpConn.WriteMsgUDP the
rate-limit check runs before the capability probe.  Against an
underlying connection without the udp.WriteUDP capability: when an
egress limiter applies and under-grants, the call reports
(len(b), nil) success and the unsupported-operation error is never
seen; the unsupported-operation error is returned exactly when the
limiter admits the datagram or no limiter applies. -/
theorem C10_limiter_before_probe (L : PacketLimiter) (u : UnderlyingPC)
    (b : List Nat) (host : Nat)
    (hcap : u.capWriteUDP = none) :
    ((L.hasOut host = true ∧ L.waitOut host b.length < b.length) →
        udpConnWriteToUDP (some L) u b host = ((b.length, none), false)
        ∧ udpConnWriteMsgUDP (some L) u b host
            = ((b.length, 0, none), false))
    ∧ (¬ (L.hasOut host = true ∧ L.waitOut host b.length < b.length) →
        udpConnWriteToUDP (some L) u b host
            = ((0, some Err.unsupported), false)
        ∧ udpConnWriteMsgUDP (some L) u b host
            = ((0, 0, some Err.unsupported), false))
    ∧ udpConnWriteToUDP none u b host = ((0, some Err.unsupported), false)
    ∧ udpConnWriteMsgUDP none u b host
        = ((0, 0, some Err.unsupported), false) := by
  refine ⟨?_, ?_, ?_, ?_⟩
  · intro hc
    constructor
    · simp only [udpConnWriteToUDP]
      rw [if_pos hc]
    · simp only [udpConnWriteMsgUDP]
      rw [if_pos hc]
  · intro hc
    constructor
    · simp only [udpConnWriteToUDP]
      rw [if_neg hc, hcap]
    · simp only [udpConnWriteMsgUDP]
      rw [if_neg hc, hcap]
  · simp only [udpConnWriteToUDP]
    rw [hcap]
  · simp only [udpConnWriteMsgUDP]
    rw [hcap]

/-- Witness for C10: a one-byte datagram, an incapable underlying
connection, and the zero-granting egress limiter (which drops it). -/
theorem C10_limiter_before_probe_witness :
    ((zeroOutLim.hasOut 3 = true
        ∧ zeroOutLim.waitOut 3 ([9] : List Nat).length
            < ([9] : List Nat).length) →
        udpConnWriteToUDP (some zeroOutLim) noCapPC [9] 3
            = ((([9] : List Nat).length, none), false)
        ∧ udpConnWriteMsgUDP (some zeroOutLim) noCapPC [9] 3
            = ((([9] : List Nat).length, 0, none), false))
    ∧ (¬ (zeroOutLim.hasOut 3 = true
        ∧ zeroOutLim.waitOut 3 ([9] : List Nat).length
            < ([9] : List Nat).length) →
        udpConnWriteToUDP (some zeroOutLim) noCapPC [9] 3
            = ((0, some Err.unsupported), false)
        ∧ udpConnWriteMsgUDP (some zeroOutLim) noCapPC [9] 3
            = ((0, 0, some Err.unsupported), false))
    ∧ udpConnWriteToUDP none noCapPC [9] 3
        = ((0, some Err.unsupported), false)
    ∧ udpConnWriteMsgUDP none noCapPC [9] 3
        = ((0, 0, some Err.unsupported), false) :=
  C10_limiter_before_probe zeroOutLim noCapPC [9] 3 rfl

/-- Counterexample to claim C8 as stated: remote-address reporting is
listed among the bridged operations that must fail with the
unsupported-operation error when the underlying connection lacks the
capability, but udpConn.RemoteAddr has no error result at all (its Go
signature is RemoteAddr() net.Addr): on an incapable underlying
connection it returns the nil address and cannot produce any error, let
alone errUnsupport. -/
theorem C8_capability_counterexample :
    udpConnRemoteAddr noCapPC = none := rfl

/-- Claim C8 amended: every bridged capability operation of udpConn
fails atomically with the unsupported-operation error when the
underlying connection lacks the corresponding interface — buffer sizing,
plain byte read/write, UDP-typed reads and writes (writes taken with no
limiter configured, since an under-granting limiter pre-empts the probe,
see C10), raw-handle access — with two exceptions: traffic-class marking
(SetDSCP) is a nil-error no-op, and remote-address reporting returns the
nil address, its signature having no error result. -/
theorem C8_capability_probe (u : UnderlyingPC) (b : List Nat)
    (host n m : Nat)
    (h1 : u.capRemoteAddr = none) (h2 : u.capSetBuffer = none)
    (h3 : u.capReader = none) (h4 : u.capWriter = none)
    (h5 : u.capReadUDP = none) (h6 : u.capWriteUDP = none)
    (h7 : u.capSyscall = none) (h8 : u.capSetDSCP = none) :
    udpConnRemoteAddr u = none
    ∧ udpConnSetReadBuffer u n = some Err.unsupported
    ∧ udpConnSetWriteBuffer u n = some Err.unsupported
    ∧ udpConnRead u = (0, some Err.unsupported)
    ∧ udpConnWrite u = (0, some Err.unsupported)
    ∧ udpConnReadFromUDP none u 0 = PRes.rerr Err.unsupported
    ∧ udpConnReadMsgUDP none u 0 = PRes.rerr Err.unsupported
    ∧ udpConnWriteToUDP none u b host = ((0, some Err.unsupported), false)
    ∧ udpConnWriteMsgUDP none u b host
        = ((0, 0, some Err.unsupported), false)
    ∧ udpConnSyscallConn u = (none, some Err.unsupported)
    ∧ udpConnSetDSCP u m = none := by
  refine ⟨?_, ?_, ?_, ?_, ?_, ?_, ?_, ?_, ?_, ?_, ?_⟩
  · simp only [udpConnRemoteAddr]
    rw [h1]
  · simp only [udpConnSetReadBuffer]
    rw [h2]
  · simp only [udpConnSetWriteBuffer]
    rw [h2]
  · simp only [udpConnRead]
    rw [h3]
  · simp only [udpConnWrite]
    rw [h4]
  · simp only [udpConnReadFromUDP]
    rw [h5]
  · simp only [udpConnReadMsgUDP]
    rw [h5]
  · simp only [udpConnWriteToUDP]
    rw [h6]
  · simp only [udpConnWriteMsgUDP]
    rw [h6]
  · simp only [udpConnSyscallConn]
    rw [h7]
  · simp only [udpConnSetDSCP]
    rw [h8]

/-- Witness for the amended C8, at the fully incapable underlying
connection. -/
theorem C8_capability_probe_witness :
    udpConnRemoteAddr noCapPC = none
    ∧ udpConnSetReadBuffer noCapPC 64 = some Err.unsupported
    ∧ udpConnSetWriteBuffer noCapPC 64 = some Err.unsupported
    ∧ udpConnRead noCapPC = (0, some Err.unsupported)
    ∧ udpConnWrite noCapPC = (0, some Err.unsupported)
    ∧ udpConnReadFromUDP none noCapPC 0 = PRes.rerr Err.unsupported
    ∧ udpConnReadMsgUDP none noCapPC 0 = PRes.rerr Err.unsupported
    ∧ udpConnWriteToUDP none noCapPC [7] 2
        = ((0, some Err.unsupported), false)
    ∧ udpConnWriteMsgUDP none noCapPC [7] 2
        = ((0, 0, some Err.unsupported), false)
    ∧ udpConnSyscallConn noCapPC = (none, some Err.unsupported)
    ∧ udpConnSetDSCP noCapPC 46 = none :=
  C8_capability_probe noCapPC [7] 2 64 46
    rfl rfl rfl rfl rfl rfl rfl rfl

/-- A rate limiter with no ingress or egress limiter for any host. -/
def noHostRL : RateLimiterM := ⟨fun _ => none, fun _ => none⟩

/-- A packet rate limiter with no ingress or egress limiter for any
host. -/
def noHostPL : PacketLimiter :=
  ⟨fun _ => false, fun _ _ _ => 0, fun _ => false, fun _ _ => 0⟩

/-- Claim C7: fast-path equivalence.  WrapConn and WrapPacketConn return
the input connection unchanged on a nil rate limiter, while WrapUDPConn
always returns a wrapper (holding the input connection and the limiter,
nil included); and whenever the rate limiter resolves no limiter for the
relevant host, serverConn.Read, serverConn.Write, packetConn.ReadFrom and
packetConn.WriteTo each produce exactly the behaviour of the underlying
connection (the nil-rate-limiter wrapper behaviour). -/
theorem C7_fast_path (id host raddr blen fuel k : Nat)
    (r : RateLimiterM) (L : PacketLimiter)
    (res : ReadResult) (st : ServerSt)
    (uw : Nat → List Nat → Nat × Option Err)
    (puw : List Nat → Nat → Nat × Option Err)
    (d : PDgram) (ds : List PDgram) (b : List Nat)
    (hin : r.inL raddr = none) (hout : r.outL raddr = none)
    (hpin : L.hasIn d.host = false) (hpout : L.hasOut host = false) :
    WrapConn none id host = WrappedStreamConn.raw id
    ∧ WrapPacketConn none id = WrappedPacketConn.rawP id
    ∧ (WrapUDPConn none id).pcId = id ∧ (WrapUDPConn none id).rl = none
    ∧ serverConnRead none raddr blen res st = rawConnRead res st
    ∧ serverConnRead (some r) raddr blen res st = rawConnRead res st
    ∧ serverConnWrite none raddr uw fuel b = rawConnWrite uw b
    ∧ serverConnWrite (some r) raddr uw fuel b = rawConnWrite uw b
    ∧ packetConnReadFrom (some L) k (d :: ds)
        = packetConnReadFrom none k (d :: ds)
    ∧ packetConnWriteTo (some L) puw b host
        = packetConnWriteTo none puw b host := by
  refine ⟨rfl, rfl, rfl, rfl, rfl, ?_, rfl, ?_, ?_, ?_⟩
  · simp only [serverConnRead, hin]
  · simp only [serverConnWrite, hout]
  · simp only [packetConnReadFrom]
    cases hd : d.derr with
    | some e => rfl
    | none => simp [hpin]
  · simp only [packetConnWriteTo]
    rw [if_neg (by simp [hpout])]

/-- Witness for C7 at concrete connections, limiters resolving no hosts,
and a concrete datagram. -/
theorem C7_fast_path_witness :
    WrapConn none 3 4 = WrappedStreamConn.raw 3
    ∧ WrapPacketConn none 3 = WrappedPacketConn.rawP 3
    ∧ (WrapUDPConn none 3).pcId = 3 ∧ (WrapUDPConn none 3).rl = none
    ∧ serverConnRead none 4 2 ⟨1, none⟩ ⟨[], [5, 6]⟩
        = rawConnRead ⟨1, none⟩ ⟨[], [5, 6]⟩
    ∧ serverConnRead (some noHostRL) 4 2 ⟨1, none⟩ ⟨[], [5, 6]⟩
        = rawConnRead ⟨1, none⟩ ⟨[], [5, 6]⟩
    ∧ serverConnWrite none 4 (fun _ c => (c.length, none)) 3 [7, 8]
        = rawConnWrite (fun _ c => (c.length, none)) [7, 8]
    ∧ serverConnWrite (some noHostRL) 4 (fun _ c => (c.length, none)) 3
        [7, 8]
        = rawConnWrite (fun _ c => (c.length, none)) [7, 8]
    ∧ packetConnReadFrom (some noHostPL) 0 (⟨[1], 4, none⟩ :: [])
        = packetConnReadFrom none 0 (⟨[1], 4, none⟩ :: [])
    ∧ packetConnWriteTo (some noHostPL) (fun p _ => (p.length, none))
        [7, 8] 4
        = packetConnWriteTo none (fun p _ => (p.length, none)) [7, 8] 4 :=
  C7_fast_path 3 4 4 2 3 0 noHostRL noHostPL ⟨1, none⟩ ⟨[], [5, 6]⟩
    (fun _ c => (c.length, none)) (fun p _ => (p.length, none))
    ⟨[1], 4, none⟩ [] [7, 8] rfl rfl rfl rfl
